import Mathlib

/-!
Verification of the core runtime of the `rox` bytecode virtual machine
(a Lox-family language implementation).

The definitions below are a shallow embedding of the Rust sources:
`src/vm.rs` (interpreter, call frames, upvalues), `src/object.rs`
(object payloads and the GC mark bit), and `src/opcode.rs` (the byte
encoded instruction set).  Heap references (`Gc<T>` pointers in Rust)
are embedded as indices into per-kind heaps held in the machine state;
mutable cells (`RefCell`) become functional updates of those heaps.
Machine integers (`u8`, `usize`) are embedded as `Nat`; the capacity
guards from the source are carried over verbatim, so overflow never
matters for the embedded operations.  Fallible operations return
`Except RuntimeError`.

The comparison semantics of `Value` live in `src/value.rs`, which is
not part of the sources at hand; those definitions are modelled from
the specification and are marked as such in their doc comments.
-/

set_option maxRecDepth 4096

namespace Rox

/-- The max number of values that can be put onto the VM's operand stack
(`VM_STACK_SIZE` in `src/vm.rs`). -/
def VM_STACK_SIZE : Nat := 256

/-- The max number of call frames handled by the VM
(`VM_FRAMES_MAX` in `src/vm.rs`). -/
def VM_FRAMES_MAX : Nat := 64

/-- A function object (`ObjFun` in `src/object.rs`): optional name, arity,
upvalue count.  The bytecode chunk is irrelevant to the claims below and
is omitted from the payload. -/
structure ObjFun where
  name : Option String
  arity : Nat
  upvalue_count : Nat
deriving DecidableEq, Repr

/-- A closure object (`ObjClosure` in `src/object.rs`): a function together
with the captured upvalues, given as indices into the upvalue heap. -/
structure ObjClosure where
  fn : ObjFun
  upvalues : List Nat
deriving DecidableEq, Repr

/-- A class object (`ObjClass` in `src/object.rs`): a name and a method
table mapping method names to closures. -/
structure ObjClass where
  name : String
  methods : List (String × ObjClosure)
deriving DecidableEq, Repr

/-- Modelled from the spec: an IEEE-754 double (`f64`) as used by
`Value::Number`.  Only the distinction between NaN and ordered finite
values matters for the claims below, so finite doubles are embedded as
rationals and NaN is an explicit constructor.  IEEE comparisons treat
NaN as unordered. -/
inductive FP where
  | nan : FP
  | fin : ℚ → FP
deriving DecidableEq, Repr

/-- A reference-carrying object handle (`Object` in `src/object.rs`).
Immutable payloads (strings, functions, closures, classes) are embedded
by value; mutable payloads (upvalues, instances) and bound methods are
embedded as indices into the corresponding heap in `VMState`. -/
inductive Obj where
  | str : String → Obj
  | fn : ObjFun → Obj
  | native : Nat → Obj
  | closure : ObjClosure → Obj
  | upval : Nat → Obj
  | cls : ObjClass → Obj
  | inst : Nat → Obj
  | bound : Nat → Obj
deriving DecidableEq, Repr

/-- A runtime value (`Value` in `src/value.rs`): nil, boolean, number, or
object handle. -/
inductive Value where
  | nil : Value
  | bool : Bool → Value
  | number : FP → Value
  | object : Obj → Value
deriving DecidableEq, Repr

/-- An upvalue payload (`ObjUpvalue` in `src/object.rs`): `Open slot`
references a live stack slot, `Closed v` owns a hoisted value. -/
inductive ObjUpvalue where
  | Open : Nat → ObjUpvalue
  | Closed : Value → ObjUpvalue
deriving DecidableEq, Repr

/-- An instance object (`ObjInstance` in `src/object.rs`): its class and
its field table. -/
structure ObjInstance where
  cls : ObjClass
  fields : List (String × Value)
deriving DecidableEq, Repr

/-- A bound method object (`ObjBoundMethod` in `src/object.rs`): a receiver
value paired with a method closure. -/
structure ObjBoundMethod where
  receiver : Value
  method : ObjClosure
deriving DecidableEq, Repr

/-- Modelled from the spec: the error kinds of `src/value.rs` used by the
arithmetic and comparison operations. -/
inductive ValueError where
  | UnaryOperandMustBeNumber : ValueError
  | BinaryOperandsMustBeNumbers : ValueError
  | BinaryOperandsMustBeNumbersOrStrings : ValueError
deriving DecidableEq, Repr

/-- The runtime error kinds of `RuntimeError` in `src/vm.rs`. -/
inductive RuntimeError where
  | StackOverflow : RuntimeError
  | ObjectHasNoProperty : RuntimeError
  | ObjectHasNoField : RuntimeError
  | UndefinedVariable : String → RuntimeError
  | UndefinedProperty : String → RuntimeError
  | InvalidSuperclass : RuntimeError
  | InvalidCallee : RuntimeError
  | InvalidMethodInvocation : RuntimeError
  | InvalidArgumentsCount : Nat → Nat → RuntimeError
  | Value : ValueError → RuntimeError
deriving DecidableEq, Repr

/-- The display string of each runtime error, from the `thiserror`
attributes on `RuntimeError` in `src/vm.rs`. -/
def RuntimeError.display : RuntimeError → String
  | .StackOverflow => "Stack overflow."
  | .ObjectHasNoProperty => "Only instances have properties."
  | .ObjectHasNoField => "Only instances have fields."
  | .UndefinedVariable n => "Undefined variable \x27" ++ n ++ "\x27."
  | .UndefinedProperty n => "Undefined property \x27" ++ n ++ "\x27."
  | .InvalidSuperclass => "Superclass must be a class."
  | .InvalidCallee => "Can only call functions and classes."
  | .InvalidMethodInvocation => "Only instances have methods."
  | .InvalidArgumentsCount arity argc =>
      "Expected " ++ toString arity ++ " arguments but got " ++ toString argc ++ "."
  | .Value .UnaryOperandMustBeNumber => "Operand must be a number."
  | .Value .BinaryOperandsMustBeNumbers => "Operands must be numbers."
  | .Value .BinaryOperandsMustBeNumbersOrStrings => "Operands must be two numbers or two strings."

/-- A call frame (`CallFrame` in `src/vm.rs`): the called closure, its
instruction pointer, and the operand-stack index of its slot base. -/
structure CallFrame where
  closure : ObjClosure
  ip : Nat
  slot : Nat
deriving DecidableEq, Repr

/-- The mutable state of `VirtualMachine` in `src/vm.rs` relevant to the
claims.  The operand stack is a list whose index 0 is the bottom slot;
the frame stack keeps its top at the head.  The upvalue, instance and
bound-method heaps replace the `Gc` pointers of the source. -/
structure VMState where
  stack : List Value
  frames : List CallFrame
  open_upvalues : List Nat
  upvalues : List ObjUpvalue
  instances : List ObjInstance
  bound_methods : List ObjBoundMethod
deriving DecidableEq, Repr

/-- `VirtualMachine::stack_push`: reject the push with `StackOverflow` when
the operand stack already holds `VM_STACK_SIZE` values. -/
def stack_push (st : VMState) (v : Value) : Except RuntimeError VMState :=
  if st.stack.length = VM_STACK_SIZE then .error .StackOverflow
  else .ok { st with stack := st.stack ++ [v] }

/-- `VirtualMachine::frames_push`: reject the push with `StackOverflow` when
the frame stack already holds `VM_FRAMES_MAX` frames. -/
def frames_push (st : VMState) (f : CallFrame) : Except RuntimeError VMState :=
  if st.frames.length = VM_FRAMES_MAX then .error .StackOverflow
  else .ok { st with frames := f :: st.frames }

/-- `VirtualMachine::stack_pop`: remove and return the top of the operand
stack.  (The source's underlying stack assumes non-emptiness; on an empty
stack the model returns `Value.nil`.) -/
def stack_pop (st : VMState) : Value × VMState :=
  (st.stack.getLastD .nil, { st with stack := st.stack.dropLast })

/-- `VirtualMachine::stack_top(n)`: the value `n` slots below the top. -/
def stack_top (st : VMState) (n : Nat) : Value :=
  st.stack.getD (st.stack.length - 1 - n) .nil

/-- `VirtualMachine::stack_top_mut(n)` used as an assignment target:
overwrite the value `n` slots below the top. -/
def stack_set_top (st : VMState) (n : Nat) (v : Value) : VMState :=
  { st with stack := st.stack.set (st.stack.length - 1 - n) v }

/-- `VirtualMachine::stack_remove_top(n)`: drop the topmost `n` values. -/
def stack_remove_top (st : VMState) (n : Nat) : VMState :=
  { st with stack := st.stack.take (st.stack.length - n) }

/-- The default frame used to totalise `frames.top(0)` on an empty frame
stack (never reached by the source). -/
def defaultFrame : CallFrame := ⟨⟨⟨none, 0, 0⟩, []⟩, 0, 0⟩

/-- `VirtualMachine::frames_pop`: remove and return the top call frame. -/
def frames_pop (st : VMState) : CallFrame × VMState :=
  (st.frames.headD defaultFrame, { st with frames := st.frames.tail })

/-- `Task::call_closure` in `src/vm.rs`: check the arity against `argc`,
then push a frame whose `ip` is 0 and whose `slot` is the operand-stack
length minus `argc` minus 1. -/
def call_closure (st : VMState) (callee : ObjClosure) (argc : Nat) :
    Except RuntimeError VMState :=
  if argc ≠ callee.fn.arity then
    .error (.InvalidArgumentsCount callee.fn.arity argc)
  else
    frames_push st ⟨callee, 0, st.stack.length - argc - 1⟩

/-- `VirtualMachine::alloc_instance`: append a fresh instance to the
instance heap and return its reference. -/
def alloc_instance (st : VMState) (i : ObjInstance) : Nat × VMState :=
  (st.instances.length, { st with instances := st.instances ++ [i] })

/-- `VirtualMachine::alloc_bound_method`: append a fresh bound method to
the bound-method heap and return its reference. -/
def alloc_bound_method (st : VMState) (m : ObjBoundMethod) : Nat × VMState :=
  (st.bound_methods.length, { st with bound_methods := st.bound_methods ++ [m] })

/-- `VirtualMachine::alloc_upvalue`: append a fresh upvalue to the upvalue
heap and return its reference. -/
def alloc_upvalue (st : VMState) (u : ObjUpvalue) : Nat × VMState :=
  (st.upvalues.length, { st with upvalues := st.upvalues ++ [u] })

/-- `Task::call_class` in `src/vm.rs`: allocate an instance of the class,
write it over the stack slot `argc` deep (where the class value sits), then
either call the class's `init` method with the same `argc`, or require
`argc = 0`. -/
def call_class (st : VMState) (callee : ObjClass) (argc : Nat) :
    Except RuntimeError VMState :=
  let p := alloc_instance st ⟨callee, []⟩
  let st2 := stack_set_top p.2 argc (.object (.inst p.1))
  match callee.methods.lookup ("init") with
  | some init => call_closure st2 init argc
  | none => if argc ≠ 0 then .error (.InvalidArgumentsCount 0 argc) else .ok st2

/-- Modelled from the spec: IEEE-754 `<` on doubles — any comparison
involving NaN is false. -/
def fcmpLt : FP → FP → Bool
  | .fin a, .fin b => decide (a < b)
  | _, _ => false

/-- Modelled from the spec: IEEE-754 `<=` on doubles — any comparison
involving NaN is false. -/
def fcmpLe : FP → FP → Bool
  | .fin a, .fin b => decide (a ≤ b)
  | _, _ => false

/-- Modelled from the spec: IEEE-754 `>` on doubles — any comparison
involving NaN is false. -/
def fcmpGt : FP → FP → Bool
  | .fin a, .fin b => decide (b < a)
  | _, _ => false

/-- Modelled from the spec: IEEE-754 `>=` on doubles — any comparison
involving NaN is false. -/
def fcmpGe : FP → FP → Bool
  | .fin a, .fin b => decide (b ≤ a)
  | _, _ => false

/-- Modelled from the spec: `Value::lt` in `src/value.rs` — both operands
must be numbers, then IEEE `<`. -/
def valueLt : Value → Value → Except ValueError Bool
  | .number a, .number b => .ok (fcmpLt a b)
  | _, _ => .error .BinaryOperandsMustBeNumbers

/-- Modelled from the spec: `Value::le` in `src/value.rs` — both operands
must be numbers, then IEEE `<=`. -/
def valueLe : Value → Value → Except ValueError Bool
  | .number a, .number b => .ok (fcmpLe a b)
  | _, _ => .error .BinaryOperandsMustBeNumbers

/-- Modelled from the spec: `Value::gt` in `src/value.rs` — both operands
must be numbers, then IEEE `>`. -/
def valueGt : Value → Value → Except ValueError Bool
  | .number a, .number b => .ok (fcmpGt a b)
  | _, _ => .error .BinaryOperandsMustBeNumbers

/-- Modelled from the spec: `Value::ge` in `src/value.rs` — both operands
must be numbers, then IEEE `>=`. -/
def valueGe : Value → Value → Except ValueError Bool
  | .number a, .number b => .ok (fcmpGe a b)
  | _, _ => .error .BinaryOperandsMustBeNumbers

/-- `Task::lt` in `src/vm.rs`: pop the right operand, compare with the
value now on top, and overwrite the top with the boolean result. -/
def vmLt (st : VMState) : Except RuntimeError VMState :=
  let p := stack_pop st
  match valueLt (stack_top p.2 0) p.1 with
  | .ok b => .ok (stack_set_top p.2 0 (.bool b))
  | .error e => .error (.Value e)

/-- `Task::le` in `src/vm.rs`. -/
def vmLe (st : VMState) : Except RuntimeError VMState :=
  let p := stack_pop st
  match valueLe (stack_top p.2 0) p.1 with
  | .ok b => .ok (stack_set_top p.2 0 (.bool b))
  | .error e => .error (.Value e)

/-- `Task::gt` in `src/vm.rs`. -/
def vmGt (st : VMState) : Except RuntimeError VMState :=
  let p := stack_pop st
  match valueGt (stack_top p.2 0) p.1 with
  | .ok b => .ok (stack_set_top p.2 0 (.bool b))
  | .error e => .error (.Value e)

/-- `Task::ge` in `src/vm.rs`. -/
def vmGe (st : VMState) : Except RuntimeError VMState :=
  let p := stack_pop st
  match valueGe (stack_top p.2 0) p.1 with
  | .ok b => .ok (stack_set_top p.2 0 (.bool b))
  | .error e => .error (.Value e)

/-- The default instance used to totalise instance-heap reads (a dangling
reference never occurs in the source). -/
def defaultInstance : ObjInstance := ⟨⟨"", []⟩, []⟩

/-- `Task::bind_method` in `src/vm.rs`: look the name up in the class's
method table; on a hit, allocate a bound method whose receiver is the
current top of stack, pop the receiver, push the bound method and report
`true`; on a miss report `false`. -/
def bind_method (st : VMState) (cls : ObjClass) (name : String) :
    Except RuntimeError (Bool × VMState) :=
  match cls.methods.lookup name with
  | some m =>
    let p := alloc_bound_method st ⟨stack_top st 0, m⟩
    let st1 := (stack_pop p.2).2
    match stack_push st1 (.object (.bound p.1)) with
    | .ok st2 => .ok (true, st2)
    | .error e => .error e
  | none => .ok (false, st)

/-- `Task::get_property` in `src/vm.rs`: the top of stack must be an
instance; fields shadow methods; a miss on both is `UndefinedProperty`. -/
def get_property (st : VMState) (name : String) : Except RuntimeError VMState :=
  match stack_top st 0 with
  | .object (.inst iRef) =>
    let obj := st.instances.getD iRef defaultInstance
    match obj.fields.lookup name with
    | some v => stack_push (stack_pop st).2 v
    | none =>
      match bind_method st obj.cls name with
      | .ok (true, st1) => .ok st1
      | .ok (false, _) => .error (.UndefinedProperty name)
      | .error e => .error e
  | _ => .error .ObjectHasNoProperty

/-- Whether a value is an instance reference (`Value::as_instance`
succeeding, in `src/value.rs`). -/
def Value.isInstanceRef : Value → Bool
  | .object (.inst _) => true
  | _ => false

/-- Whether a value is a number (`Value::Number` variant). -/
def Value.isNumber : Value → Bool
  | .number _ => true
  | _ => false

/-- The default upvalue used to totalise upvalue-heap reads (a dangling
reference never occurs in the source). -/
def defaultUpvalue : ObjUpvalue := .Closed .nil

/-- Whether the upvalue-heap cell `id` is an open upvalue for stack slot
`location` — the predicate of the reuse scan in `Task::capture_upvalue`. -/
def isOpenAt (h : List ObjUpvalue) (id location : Nat) : Bool :=
  match h.getD id defaultUpvalue with
  | .Open l => l == location
  | .Closed _ => false

/-- `Task::capture_upvalue` in `src/vm.rs`: scan the open-upvalue list in
order for an existing open upvalue at `location` and reuse it; otherwise
allocate a fresh `Open location` upvalue and append it to the list. -/
def capture_upvalue (st : VMState) (location : Nat) : Nat × VMState :=
  match st.open_upvalues.find? (fun id => isOpenAt st.upvalues id location) with
  | some id => (id, st)
  | none =>
    let p := alloc_upvalue st (.Open location)
    (p.1, { p.2 with open_upvalues := p.2.open_upvalues ++ [p.1] })

/-- Well-formedness of the open-upvalue list: every entry references an
existing upvalue-heap cell. -/
def ValidOpens (st : VMState) : Prop :=
  ∀ id ∈ st.open_upvalues, id < st.upvalues.length

/-- The shared-capture invariant of the spec: at most one open upvalue
exists per stack slot — any two open-list entries whose cells are open at
the same slot are the same entry. -/
def UniqueOpen (st : VMState) : Prop :=
  ∀ i ∈ st.open_upvalues, ∀ j ∈ st.open_upvalues, ∀ s : Nat,
    st.upvalues.getD i defaultUpvalue = .Open s →
    st.upvalues.getD j defaultUpvalue = .Open s → i = j

/-- One iteration of the hoisting loop in `Task::close_upvalues`: if the
upvalue-heap cell `id` is open at a slot at or above `last`, replace it in
place by the closed value taken from the operand stack. -/
def closeCell (last : Nat) (stack : List Value) (h : List ObjUpvalue) (id : Nat) :
    List ObjUpvalue :=
  match h.getD id defaultUpvalue with
  | .Open slot => if last ≤ slot then h.set id (.Closed (stack.getD slot .nil)) else h
  | .Closed _ => h

/-- Whether the upvalue-heap cell `id` still holds an open upvalue — the
`retain` predicate at the end of `Task::close_upvalues`. -/
def isStillOpen (h : List ObjUpvalue) (id : Nat) : Bool :=
  match h.getD id defaultUpvalue with
  | .Open _ => true
  | .Closed _ => false

/-- `Task::close_upvalues` in `src/vm.rs`: hoist every open upvalue in the
open list whose slot is at or above `last` into a closed upvalue holding
the stack value at that slot, then retain only the still-open entries. -/
def close_upvalues (st : VMState) (last : Nat) : VMState :=
  let h := st.open_upvalues.foldl (closeCell last st.stack) st.upvalues
  { st with
    upvalues := h,
    open_upvalues := st.open_upvalues.filter (fun id => isStillOpen h id) }

/-- `Task::ret` in `src/vm.rs`: pop the result, close upvalues at or above
the returning frame's slot base, pop the frame; when no frames remain,
pop the program's outer closure and report termination; otherwise
truncate the operand stack down to the frame's slot base and push the
result. -/
def ret (st : VMState) : Except RuntimeError (Bool × VMState) :=
  let p := stack_pop st
  let st2 := close_upvalues p.2 (p.2.frames.headD defaultFrame).slot
  let q := frames_pop st2
  if q.2.frames.length = 0 then
    .ok (true, (stack_pop q.2).2)
  else
    let st4 := stack_remove_top q.2 (q.2.stack.length - q.1.slot)
    match stack_push st4 p.1 with
    | .ok st5 => .ok (false, st5)
    | .error e => .error e

/-- The garbage collector's per-object mark state: one mark flag per
object (indexed like the heaps above) and the grey worklist
(`grey_objects` in `src/vm.rs`). -/
structure GcState where
  marked : List Bool
  grey : List Nat
deriving DecidableEq, Repr

/-- `GcData::mark` in `src/object.rs`: if the flag is already set, report
`false` and change nothing; otherwise set the flag and report `true`. -/
def gcDataMark (m : List Bool) (id : Nat) : Bool × List Bool :=
  if m.getD id false then (false, m) else (true, m.set id true)

/-- `Object::mark` in `src/object.rs`: mark the object and push it onto
the grey worklist exactly when `GcData::mark` reported it newly marked. -/
def objMark (g : GcState) (id : Nat) : GcState :=
  let p := gcDataMark g.marked id
  if p.1 then { marked := p.2, grey := g.grey ++ [id] } else { marked := p.2, grey := g.grey }

/-- The mark-roots loop of `VirtualMachine::mark_roots` in `src/vm.rs`:
mark each root object in order. -/
def markMany (g : GcState) (roots : List Nat) : GcState :=
  roots.foldl objMark g

/-- The opcode set of `src/opcode.rs`. -/
inductive Opcode where
  | Const | Nil | True | False | Pop
  | GetLocal | SetLocal | GetGlobal | SetGlobal | DefineGlobal
  | GetUpvalue | SetUpvalue | GetProperty | SetProperty | GetSuper
  | NE | EQ | GT | GE | LT | LE
  | Add | Sub | Mul | Div | Not | Neg | Print
  | Jump | JumpIfTrue | JumpIfFalse | Loop
  | Call | Invoke | SuperInvoke | Closure | CloseUpvalue | Ret
  | Class | Inherit | Method
deriving DecidableEq, Repr

/-- `impl From<Opcode> for u8` in `src/opcode.rs`: the discriminant byte of
each opcode. -/
def Opcode.toByte : Opcode → Nat
  | .Const => 0
  | .Nil => 1
  | .True => 2
  | .False => 3
  | .Pop => 4
  | .GetLocal => 5
  | .SetLocal => 6
  | .GetGlobal => 7
  | .SetGlobal => 8
  | .DefineGlobal => 9
  | .GetUpvalue => 10
  | .SetUpvalue => 11
  | .GetProperty => 12
  | .SetProperty => 13
  | .GetSuper => 14
  | .NE => 15
  | .EQ => 16
  | .GT => 17
  | .GE => 18
  | .LT => 19
  | .LE => 20
  | .Add => 21
  | .Sub => 22
  | .Mul => 23
  | .Div => 24
  | .Not => 25
  | .Neg => 26
  | .Print => 27
  | .Jump => 28
  | .JumpIfTrue => 29
  | .JumpIfFalse => 30
  | .Loop => 31
  | .Call => 32
  | .Invoke => 33
  | .SuperInvoke => 34
  | .Closure => 35
  | .CloseUpvalue => 36
  | .Ret => 37
  | .Class => 38
  | .Inherit => 39
  | .Method => 40

/-- `impl From<u8> for Opcode` in `src/opcode.rs`: decode a byte into an
opcode; the source panics on an unknown byte, which the model renders as
`none`. -/
def Opcode.fromByte : Nat → Option Opcode
  | 0 => some .Const
  | 1 => some .Nil
  | 2 => some .True
  | 3 => some .False
  | 4 => some .Pop
  | 5 => some .GetLocal
  | 6 => some .SetLocal
  | 7 => some .GetGlobal
  | 8 => some .SetGlobal
  | 9 => some .DefineGlobal
  | 10 => some .GetUpvalue
  | 11 => some .SetUpvalue
  | 12 => some .GetProperty
  | 13 => some .SetProperty
  | 14 => some .GetSuper
  | 15 => some .NE
  | 16 => some .EQ
  | 17 => some .GT
  | 18 => some .GE
  | 19 => some .LT
  | 20 => some .LE
  | 21 => some .Add
  | 22 => some .Sub
  | 23 => some .Mul
  | 24 => some .Div
  | 25 => some .Not
  | 26 => some .Neg
  | 27 => some .Print
  | 28 => some .Jump
  | 29 => some .JumpIfTrue
  | 30 => some .JumpIfFalse
  | 31 => some .Loop
  | 32 => some .Call
  | 33 => some .Invoke
  | 34 => some .SuperInvoke
  | 35 => some .Closure
  | 36 => some .CloseUpvalue
  | 37 => some .Ret
  | 38 => some .Class
  | 39 => some .Inherit
  | 40 => some .Method
  | _ => none

end Rox

namespace Rox

/-- A list with an element appended at position `pre.length` reads back
that element there. -/
theorem getD_append_cons {α : Type _} (pre suf : List α) (a d : α) :
    (pre ++ a :: suf).getD pre.length d = a := by
  induction pre with
  | nil => simp
  | cons x xs ih => simpa using ih

/-- Setting position `pre.length` of `pre ++ a :: suf` replaces `a`. -/
theorem set_append_cons {α : Type _} (pre suf : List α) (a b : α) :
    (pre ++ a :: suf).set pre.length b = pre ++ b :: suf := by
  induction pre with
  | nil => simp
  | cons x xs ih => simp [ih]

/-- Reading the top of a stack that ends in `x` yields `x`. -/
theorem stack_top_concat (st : VMState) (pre : List Value) (x : Value)
    (h : st.stack = pre ++ [x]) : stack_top st 0 = x := by
  rw [stack_top, h]
  simpa using getD_append_cons pre [] x .nil

/-- Overwriting the top of a stack that ends in `x` replaces `x`. -/
theorem stack_set_top_concat (st : VMState) (pre : List Value) (x v : Value)
    (h : st.stack = pre ++ [x]) :
    stack_set_top st 0 v = { st with stack := pre ++ [v] } := by
  rw [stack_set_top, h]
  have := set_append_cons pre [] x v
  simp only [List.length_append, List.length_cons, List.length_nil,
    Nat.add_sub_cancel, Nat.sub_zero]
  simpa using this

/-- C8: pushing onto a full operand stack (256 values) or a full frame
stack (64 frames) fails with `StackOverflow`, whose display string is
"Stack overflow."; pushes below capacity succeed and append the value. -/
theorem push_overflow_spec (st : VMState) (v : Value) (f : CallFrame) :
    (st.stack.length = 256 → stack_push st v = .error .StackOverflow)
    ∧ (st.stack.length < 256 →
        stack_push st v = .ok { st with stack := st.stack ++ [v] })
    ∧ (st.frames.length = 64 → frames_push st f = .error .StackOverflow)
    ∧ (st.frames.length < 64 →
        frames_push st f = .ok { st with frames := f :: st.frames })
    ∧ RuntimeError.StackOverflow.display = "Stack overflow." := by
  refine ⟨fun h => ?_, fun h => ?_, fun h => ?_, fun h => ?_, rfl⟩
  · simp [stack_push, VM_STACK_SIZE, h]
  · simp [stack_push, VM_STACK_SIZE, Nat.ne_of_lt h]
  · simp [frames_push, VM_FRAMES_MAX, h]
  · simp [frames_push, VM_FRAMES_MAX, Nat.ne_of_lt h]

/-- Closed witness for `push_overflow_spec` at a concrete state. -/
theorem push_overflow_spec_witness :
    stack_push ⟨[.nil], [], [], [], [], []⟩ (.bool true)
      = .ok ⟨[.nil, .bool true], [], [], [], [], []⟩ :=
  (push_overflow_spec ⟨[.nil], [], [], [], [], []⟩ (.bool true) defaultFrame).2.1
    (by decide)

/-- C1: calling a closure fails with `InvalidArgumentsCount {arity, argc}`
exactly when `argc` differs from the closure's function's arity; on
success a new call frame is pushed whose `ip` is 0 and whose `slot` is the
operand-stack length minus `argc` minus 1, and the operand stack is left
unchanged. -/
theorem call_closure_spec (st : VMState) (callee : ObjClosure) (argc : Nat) :
    (call_closure st callee argc
        = .error (.InvalidArgumentsCount callee.fn.arity argc)
      ↔ argc ≠ callee.fn.arity)
    ∧ (∀ st', call_closure st callee argc = .ok st' →
        st'.frames = ⟨callee, 0, st.stack.length - argc - 1⟩ :: st.frames
          ∧ st'.stack = st.stack) := by
  constructor
  · constructor
    · intro h hne
      rw [hne] at h
      by_cases hf : st.frames.length = VM_FRAMES_MAX
      · simp [call_closure, frames_push, hf] at h
      · simp [call_closure, frames_push, hf] at h
    · intro hne
      simp [call_closure, hne]
  · intro st' h
    by_cases hne : argc = callee.fn.arity
    · subst hne
      by_cases hf : st.frames.length = VM_FRAMES_MAX
      · simp [call_closure, frames_push, hf] at h
      · simp [call_closure, frames_push, hf] at h
        subst h
        exact ⟨rfl, rfl⟩
    · simp [call_closure, hne] at h

/-- Closed witness for `call_closure_spec`: a 1-ary closure called with one
argument pushes the expected frame. -/
theorem call_closure_spec_witness :
    (⟨⟨⟨none, 1, 0⟩, []⟩, 0, 0⟩ : CallFrame) :: ([] : List CallFrame)
      = [⟨⟨⟨none, 1, 0⟩, []⟩, 0, 0⟩]
    ∧ ∀ st', call_closure ⟨[.nil, .number (.fin 1)], [], [], [], [], []⟩
          ⟨⟨none, 1, 0⟩, []⟩ 1 = .ok st' →
        st'.frames = [⟨⟨⟨none, 1, 0⟩, []⟩, 0, 0⟩]
          ∧ st'.stack = [.nil, .number (.fin 1)] :=
  ⟨rfl, fun st' h =>
    (call_closure_spec ⟨[.nil, .number (.fin 1)], [], [], [], [], []⟩
      ⟨⟨none, 1, 0⟩, []⟩ 1).2 st' h⟩

/-- C10: the opcode byte encoding round-trips: encoding any opcode and
decoding the byte yields the opcode again, and every byte up to 40 decodes
to the opcode with that discriminant. -/
theorem opcode_roundtrip :
    (∀ op : Opcode, Opcode.fromByte op.toByte = some op)
    ∧ (∀ b : Nat, b ≤ 40 → (Opcode.fromByte b).map Opcode.toByte = some b) := by
  constructor
  · intro op
    cases op <;> rfl
  · intro b hb
    interval_cases b <;> rfl

/-- Closed witness for `opcode_roundtrip`: byte 40 decodes to `Method`. -/
theorem opcode_roundtrip_witness :
    (Opcode.fromByte 40).map Opcode.toByte = some 40 :=
  opcode_roundtrip.2 40 (by decide)

/-- C9: the comparison operations require both operands to be numbers and
follow IEEE-754: whenever at least one operand is NaN all four comparisons
yield `false`; `<=` is not `!(>)`; and at the interpreter level each of
the four comparison opcodes leaves `false` on top of the stack whenever
one of the two number operands is NaN. -/
theorem comparison_nan_spec :
    (∀ a b : FP, a = .nan ∨ b = .nan →
      fcmpLt a b = false ∧ fcmpLe a b = false
        ∧ fcmpGt a b = false ∧ fcmpGe a b = false)
    ∧ (∀ v w : Value, v.isNumber = false ∨ w.isNumber = false →
        valueLt v w = .error .BinaryOperandsMustBeNumbers
          ∧ valueLe v w = .error .BinaryOperandsMustBeNumbers
          ∧ valueGt v w = .error .BinaryOperandsMustBeNumbers
          ∧ valueGe v w = .error .BinaryOperandsMustBeNumbers)
    ∧ ¬ (∀ a b : FP, fcmpLe a b = !(fcmpGt a b))
    ∧ (∀ (st : VMState) (pre : List Value) (a b : FP),
        st.stack = pre ++ [.number a, .number b] → (a = .nan ∨ b = .nan) →
        (vmLt st).map (fun s => stack_top s 0) = .ok (.bool false)
          ∧ (vmLe st).map (fun s => stack_top s 0) = .ok (.bool false)
          ∧ (vmGt st).map (fun s => stack_top s 0) = .ok (.bool false)
          ∧ (vmGe st).map (fun s => stack_top s 0) = .ok (.bool false)) := by
  have hfcmp : ∀ a b : FP, a = .nan ∨ b = .nan →
      fcmpLt a b = false ∧ fcmpLe a b = false
        ∧ fcmpGt a b = false ∧ fcmpGe a b = false := by
    intro a b h
    rcases h with h | h
    · subst h
      cases b <;> simp [fcmpLt, fcmpLe, fcmpGt, fcmpGe]
    · subst h
      cases a <;> simp [fcmpLt, fcmpLe, fcmpGt, fcmpGe]
  refine ⟨hfcmp, ?_, ?_, ?_⟩
  · intro v w h
    cases v <;> cases w <;>
      simp_all [valueLt, valueLe, valueGt, valueGe, Value.isNumber]
  · intro h
    have := h .nan .nan
    simp [fcmpLe, fcmpGt] at this
  · intro st pre a b hstk hnan
    have hstk' : st.stack = (pre ++ [.number a]) ++ [.number b] := by
      simpa using hstk
    have hpop : stack_pop st = (Value.number b, { st with stack := pre ++ [.number a] }) := by
      simp [stack_pop, hstk']
    have htop : stack_top { st with stack := pre ++ [Value.number a] } 0 = Value.number a :=
      stack_top_concat _ pre _ rfl
    have hset : stack_set_top { st with stack := pre ++ [Value.number a] } 0 (Value.bool false)
        = { st with stack := pre ++ [Value.bool false] } :=
      stack_set_top_concat _ pre _ _ rfl
    have hfin : stack_top { st with stack := pre ++ [Value.bool false] } 0 = Value.bool false :=
      stack_top_concat _ pre _ rfl
    have hres := hfcmp a b hnan
    refine ⟨?_, ?_, ?_, ?_⟩
    · simp only [vmLt, hpop]
      rw [htop]
      simp [valueLt, hres.1, hset, Except.map, hfin]
    · simp only [vmLe, hpop]
      rw [htop]
      simp [valueLe, hres.2.1, hset, Except.map, hfin]
    · simp only [vmGt, hpop]
      rw [htop]
      simp [valueGt, hres.2.2.1, hset, Except.map, hfin]
    · simp only [vmGe, hpop]
      rw [htop]
      simp [valueGe, hres.2.2.2, hset, Except.map, hfin]

/-- Closed witness for `comparison_nan_spec`: comparing NaN with 1 via the
`LE` opcode leaves `false` on top of the stack. -/
theorem comparison_nan_spec_witness :
    (vmLe ⟨[.number .nan, .number (.fin 1)], [], [], [], [], []⟩).map
        (fun s => stack_top s 0) = .ok (.bool false) :=
  (comparison_nan_spec.2.2.2 ⟨[.number .nan, .number (.fin 1)], [], [], [], [], []⟩
      [] .nan (.fin 1) rfl (Or.inl rfl)).2.1

/-- C2: calling a class allocates a fresh instance of it and writes it
over the stack slot `argc` deep (the callee slot); then, when the class
has an `init` method, that closure is called with the same `argc`;
otherwise a nonzero `argc` fails with `InvalidArgumentsCount {0, argc}`
and a zero `argc` succeeds with no further effect. -/
theorem call_class_spec (st : VMState) (callee : ObjClass) (argc : Nat)
    (pre args : List Value) (v0 : Value)
    (hstk : st.stack = pre ++ v0 :: args) (hargs : args.length = argc) :
    (∀ init, callee.methods.lookup ("init") = some init →
        call_class st callee argc
          = call_closure { st with
              stack := pre ++ Value.object (.inst st.instances.length) :: args,
              instances := st.instances ++ [⟨callee, []⟩] } init argc)
    ∧ (callee.methods.lookup ("init") = none → argc ≠ 0 →
        call_class st callee argc = .error (.InvalidArgumentsCount 0 argc))
    ∧ (callee.methods.lookup ("init") = none → argc = 0 →
        call_class st callee argc
          = .ok { st with
              stack := pre ++ Value.object (.inst st.instances.length) :: args,
              instances := st.instances ++ [⟨callee, []⟩] }) := by
  subst hargs
  have hidx : (pre ++ v0 :: args).length - 1 - args.length = pre.length := by
    simp only [List.length_append, List.length_cons]
    omega
  have hst2 : stack_set_top { st with instances := st.instances ++ [⟨callee, []⟩] }
      args.length (.object (.inst st.instances.length))
      = { st with
          stack := pre ++ Value.object (.inst st.instances.length) :: args,
          instances := st.instances ++ [⟨callee, []⟩] } := by
    simp only [stack_set_top, hstk, hidx, set_append_cons]
  refine ⟨fun init hinit => ?_, fun hnone hargc => ?_, fun hnone hargc => ?_⟩
  · simp only [call_class, alloc_instance, hst2, hinit]
  · simp only [call_class, alloc_instance, hst2, hnone, hargc]
    simp [hargc]
  · rw [hargc] at hst2
    simp only [call_class, alloc_instance, hnone, hargc, hst2]
    simp

/-- Closed witness for `call_class_spec`: calling a class with no `init`
method and zero arguments replaces the class on the stack by a fresh
instance. -/
theorem call_class_spec_witness :
    call_class ⟨[.object (.cls ⟨"A", []⟩)], [], [], [], [], []⟩ ⟨"A", []⟩ 0
      = .ok ⟨[.object (.inst 0)], [], [], [], [⟨⟨"A", []⟩, []⟩], []⟩ :=
  (call_class_spec ⟨[.object (.cls ⟨"A", []⟩)], [], [], [], [], []⟩ ⟨"A", []⟩ 0
      [] [] (.object (.cls ⟨"A", []⟩)) rfl rfl).2.2 rfl rfl

/-- C4: `GetProperty` requires an instance on top of the stack (else
`ObjectHasNoProperty`, displayed "Only instances have properties.");
a field hit pops the instance and pushes the field value; otherwise a
method-table hit allocates a bound method with the instance as receiver
and that closure as method, pops the instance and pushes the bound
method; a miss on both is `UndefinedProperty`.  Fields take precedence
over methods. -/
theorem get_property_spec (name : String) :
    (∀ st : VMState, (stack_top st 0).isInstanceRef = false →
        get_property st name = .error .ObjectHasNoProperty)
    ∧ ∀ (st : VMState) (pre : List Value) (iRef : Nat),
        st.stack = pre ++ [.object (.inst iRef)] →
        st.stack.length ≤ 256 →
        ((∀ v, (st.instances.getD iRef defaultInstance).fields.lookup name = some v →
            get_property st name = .ok { st with stack := pre ++ [v] })
         ∧ (∀ m, (st.instances.getD iRef defaultInstance).fields.lookup name = none →
              (st.instances.getD iRef defaultInstance).cls.methods.lookup name = some m →
            get_property st name = .ok { st with
              stack := pre ++ [.object (.bound st.bound_methods.length)],
              bound_methods := st.bound_methods ++ [⟨.object (.inst iRef), m⟩] })
         ∧ ((st.instances.getD iRef defaultInstance).fields.lookup name = none →
              (st.instances.getD iRef defaultInstance).cls.methods.lookup name = none →
            get_property st name = .error (.UndefinedProperty name))) := by
  constructor
  · intro st h
    rcases hv : stack_top st 0 with _ | b | n | o
    · simp [get_property, hv]
    · simp [get_property, hv]
    · simp [get_property, hv]
    · cases o <;> simp_all [get_property, Value.isInstanceRef]
  · intro st pre iRef hstk hlen
    have htop : stack_top st 0 = .object (.inst iRef) :=
      stack_top_concat st pre _ hstk
    have hprelen : pre.length ≠ 256 := by
      rw [hstk] at hlen
      simp at hlen
      omega
    have hpop : (stack_pop st).2 = { st with stack := pre } := by
      simp [stack_pop, hstk]
    refine ⟨fun v hv => ?_, fun m hf hm => ?_, fun hf hm => ?_⟩
    · simp only [get_property, htop, hv, hpop]
      simp [stack_push, VM_STACK_SIZE, hprelen]
    · unfold get_property
      rw [htop]
      simp only [List.getD_eq_getElem?_getD] at hf hm
      simp [htop, hf, bind_method, hm, alloc_bound_method, stack_pop, stack_push,
        hstk, VM_STACK_SIZE, hprelen]
    · unfold get_property
      rw [htop]
      simp only [List.getD_eq_getElem?_getD] at hf hm
      simp [hf, bind_method, hm]

/-- Closed witness for `get_property_spec`: reading field `x` of an
instance pops the instance and pushes the field value. -/
theorem get_property_spec_witness :
    get_property ⟨[.object (.inst 0)], [], [], [],
        [⟨⟨"A", []⟩, [("x", .number (.fin 7))]⟩], []⟩ ("x")
      = .ok ⟨[.number (.fin 7)], [], [], [],
        [⟨⟨"A", []⟩, [("x", .number (.fin 7))]⟩], []⟩ :=
  ((get_property_spec ("x")).2 ⟨[.object (.inst 0)], [], [], [],
      [⟨⟨"A", []⟩, [("x", .number (.fin 7))]⟩], []⟩ [] 0 rfl (by decide)).1
    (.number (.fin 7)) rfl

/-- Reading within the left part of an appended list ignores the right
part. -/
theorem getD_append_lt {α : Type _} (l l2 : List α) (i : Nat) (h : i < l.length)
    (d : α) : (l ++ l2).getD i d = l.getD i d := by
  simp [List.getD_eq_getElem?_getD, List.getElem?_append, h]

/-- A cell that reads as `Open` lies within the heap (the default for
out-of-range reads is a closed cell). -/
theorem getD_open_lt (h : List ObjUpvalue) (j s : Nat)
    (hj : h.getD j defaultUpvalue = .Open s) : j < h.length := by
  by_contra hge
  push_neg at hge
  rw [List.getD_eq_getElem?_getD, List.getElem?_eq_none_iff.mpr hge] at hj
  simp [defaultUpvalue] at hj

/-- `closeCell` at one index leaves every other cell unchanged. -/
theorem closeCell_getD_ne (last : Nat) (stack : List Value) (h : List ObjUpvalue)
    (id j : Nat) (hne : id ≠ j) :
    (closeCell last stack h id).getD j defaultUpvalue = h.getD j defaultUpvalue := by
  unfold closeCell
  cases hc : h.getD id defaultUpvalue with
  | Open slot =>
    by_cases hle : last ≤ slot
    · simp [hle, List.getD_eq_getElem?_getD, List.getElem?_set_ne hne]
    · simp [hle]
  | Closed v => simp

/-- `closeCell` never changes a closed cell. -/
theorem closeCell_closed (last : Nat) (stack : List Value) (h : List ObjUpvalue)
    (id j : Nat) (v : Value) (hj : h.getD j defaultUpvalue = .Closed v) :
    (closeCell last stack h id).getD j defaultUpvalue = .Closed v := by
  rcases eq_or_ne id j with rfl | hne
  · unfold closeCell
    rw [hj]
    exact hj
  · rw [closeCell_getD_ne last stack h id j hne]
    exact hj

/-- `closeCell` leaves a cell open below the threshold unchanged. -/
theorem closeCell_open_small (last : Nat) (stack : List Value) (h : List ObjUpvalue)
    (id j s : Nat) (hs : s < last) (hj : h.getD j defaultUpvalue = .Open s) :
    (closeCell last stack h id).getD j defaultUpvalue = .Open s := by
  rcases eq_or_ne id j with rfl | hne
  · unfold closeCell
    rw [hj]
    simpa [Nat.not_le.mpr hs] using hj
  · rw [closeCell_getD_ne last stack h id j hne]
    exact hj

/-- `closeCell` on a cell open at or above the threshold hoists the stack
value at that slot into the cell. -/
theorem closeCell_open_big (last : Nat) (stack : List Value) (h : List ObjUpvalue)
    (j s : Nat) (hs : last ≤ s) (hj : h.getD j defaultUpvalue = .Open s) :
    (closeCell last stack h j).getD j defaultUpvalue
      = .Closed (stack.getD s .nil) := by
  have hlt := getD_open_lt h j s hj
  unfold closeCell
  rw [hj]
  simp [hs, List.getD_eq_getElem?_getD, List.getElem?_set_self hlt]

/-- A cell open after `closeCell` was already open before it. -/
theorem closeCell_open_back (last : Nat) (stack : List Value) (h : List ObjUpvalue)
    (id j s : Nat)
    (hj : (closeCell last stack h id).getD j defaultUpvalue = .Open s) :
    h.getD j defaultUpvalue = .Open s := by
  rcases eq_or_ne id j with rfl | hne
  · unfold closeCell at hj
    cases hc : h.getD id defaultUpvalue with
    | Open slot =>
      rw [hc] at hj
      by_cases hle : last ≤ slot
      · have hlt := getD_open_lt h id slot hc
        simp [hle, List.getD_eq_getElem?_getD, List.getElem?_set_self hlt] at hj
      · simp [hle] at hj
        rw [List.getD_eq_getElem?_getD] at hc
        rw [hc] at hj
        exact hj
    | Closed v =>
      rw [hc] at hj
      simp at hj
      rw [List.getD_eq_getElem?_getD] at hc
      rw [hc] at hj
      exact hj
  · rw [closeCell_getD_ne last stack h id j hne] at hj
    exact hj

/-- The hoisting fold never changes a closed cell. -/
theorem foldl_closeCell_closed (last : Nat) (stack : List Value) (l : List Nat) :
    ∀ (h : List ObjUpvalue) (j : Nat) (v : Value),
      h.getD j defaultUpvalue = .Closed v →
      (l.foldl (closeCell last stack) h).getD j defaultUpvalue = .Closed v := by
  induction l with
  | nil => intro h j v hj; exact hj
  | cons a tl ih =>
    intro h j v hj
    exact ih _ _ _ (closeCell_closed last stack h a j v hj)

/-- The hoisting fold leaves a cell open below the threshold unchanged. -/
theorem foldl_closeCell_open_small (last : Nat) (stack : List Value) (l : List Nat) :
    ∀ (h : List ObjUpvalue) (j s : Nat), s < last →
      h.getD j defaultUpvalue = .Open s →
      (l.foldl (closeCell last stack) h).getD j defaultUpvalue = .Open s := by
  induction l with
  | nil => intro h j s _ hj; exact hj
  | cons a tl ih =>
    intro h j s hlt hj
    exact ih _ _ _ hlt (closeCell_open_small last stack h a j s hlt hj)

/-- The hoisting fold closes every listed cell that is open at or above
the threshold, storing the stack value at its slot. -/
theorem foldl_closeCell_closes (last : Nat) (stack : List Value) (l : List Nat) :
    ∀ (h : List ObjUpvalue) (j s : Nat), j ∈ l → last ≤ s →
      h.getD j defaultUpvalue = .Open s →
      (l.foldl (closeCell last stack) h).getD j defaultUpvalue
        = .Closed (stack.getD s .nil) := by
  induction l with
  | nil => intro _ _ _ hmem; cases hmem
  | cons a tl ih =>
    intro h j s hmem hle hj
    rcases eq_or_ne a j with rfl | hne
    · exact foldl_closeCell_closed last stack tl _ a _
        (closeCell_open_big last stack h a s hle hj)
    · rcases List.mem_cons.mp hmem with hja | htl
      · exact absurd hja.symm hne
      · exact ih _ j s htl hle
          (by rw [closeCell_getD_ne last stack h a j hne]; exact hj)

/-- A cell open after the hoisting fold was already open before it. -/
theorem foldl_closeCell_open_back (last : Nat) (stack : List Value) (l : List Nat) :
    ∀ (h : List ObjUpvalue) (j s : Nat),
      (l.foldl (closeCell last stack) h).getD j defaultUpvalue = .Open s →
      h.getD j defaultUpvalue = .Open s := by
  induction l with
  | nil => intro h j s hj; exact hj
  | cons a tl ih =>
    intro h j s hj
    exact closeCell_open_back last stack h a j s (ih _ _ _ hj)

/-- A fold whose every step is the identity is the identity. -/
theorem foldl_closeCell_id (last : Nat) (stack : List Value) (l : List Nat) :
    ∀ h : List ObjUpvalue, (∀ id ∈ l, closeCell last stack h id = h) →
      l.foldl (closeCell last stack) h = h := by
  induction l with
  | nil => intro h _; rfl
  | cons a tl ih =>
    intro h hall
    rw [List.foldl_cons, hall a (by simp)]
    exact ih h (fun id hid => hall id (by simp [hid]))

/-- `closeCell` is the identity on a cell open below the threshold. -/
theorem closeCell_id_of_small (last : Nat) (stack : List Value) (h : List ObjUpvalue)
    (id s : Nat) (hs : s < last)
    (hcell : h.getD id defaultUpvalue = .Open s) :
    closeCell last stack h id = h := by
  unfold closeCell
  cases hc : h.getD id defaultUpvalue with
  | Open slot =>
    rw [hc] at hcell
    injection hcell with h1
    subst h1
    simp [Nat.not_le.mpr hs]
  | Closed v => rfl

/-- Characterisation of `close_upvalues`: every listed cell open at or
above the threshold becomes closed over the stack value at its slot and
drops out of the open list; every listed cell open below the threshold is
untouched and retained. -/
theorem close_upvalues_char (st : VMState) (last : Nat) :
    ∀ id ∈ st.open_upvalues, ∀ s : Nat,
      st.upvalues.getD id defaultUpvalue = .Open s →
      (last ≤ s → (close_upvalues st last).upvalues.getD id defaultUpvalue
          = .Closed (st.stack.getD s .nil)
        ∧ id ∉ (close_upvalues st last).open_upvalues)
      ∧ (s < last → (close_upvalues st last).upvalues.getD id defaultUpvalue = .Open s
        ∧ id ∈ (close_upvalues st last).open_upvalues) := by
  intro id hid s hs
  have hup : (close_upvalues st last).upvalues
      = st.open_upvalues.foldl (closeCell last st.stack) st.upvalues := rfl
  have hop : (close_upvalues st last).open_upvalues
      = st.open_upvalues.filter (fun i =>
          isStillOpen (st.open_upvalues.foldl (closeCell last st.stack) st.upvalues) i) := rfl
  constructor
  · intro hle
    have hclosed := foldl_closeCell_closes last st.stack st.open_upvalues
      st.upvalues id s hid hle hs
    rw [hup, hop]
    refine ⟨hclosed, fun hmem => ?_⟩
    have hstill := (List.mem_filter.mp hmem).2
    simp only [isStillOpen, hclosed] at hstill
    exact Bool.noConfusion hstill
  · intro hlt
    have hopen := foldl_closeCell_open_small last st.stack st.open_upvalues
      st.upvalues id s hlt hs
    rw [hup, hop]
    refine ⟨hopen, List.mem_filter.mpr ⟨hid, ?_⟩⟩
    simp only [isStillOpen, hopen]

/-- `close_upvalues` is idempotent at a fixed threshold. -/
theorem close_upvalues_idem (st : VMState) (last : Nat) :
    close_upvalues (close_upvalues st last) last = close_upvalues st last := by
  have hsmall : ∀ id ∈ st.open_upvalues.filter (fun i =>
      isStillOpen (st.open_upvalues.foldl (closeCell last st.stack) st.upvalues) i),
      ∃ s : Nat, (st.open_upvalues.foldl (closeCell last st.stack) st.upvalues).getD id
          defaultUpvalue = .Open s ∧ s < last := by
    intro id hid
    have hmem := (List.mem_filter.mp hid).1
    have hstill := (List.mem_filter.mp hid).2
    cases hcell : (st.open_upvalues.foldl (closeCell last st.stack) st.upvalues).getD id
        defaultUpvalue with
    | Open s =>
      refine ⟨s, rfl, ?_⟩
      by_contra hge
      push_neg at hge
      have hsrc := foldl_closeCell_open_back last st.stack st.open_upvalues
        st.upvalues id s hcell
      have hcl := foldl_closeCell_closes last st.stack st.open_upvalues
        st.upvalues id s hmem hge hsrc
      rw [hcell] at hcl
      exact ObjUpvalue.noConfusion hcl
    | Closed v =>
      simp only [isStillOpen, hcell] at hstill
      exact Bool.noConfusion hstill
  have hfold2 : (st.open_upvalues.filter (fun i =>
      isStillOpen (st.open_upvalues.foldl (closeCell last st.stack) st.upvalues) i)).foldl
        (closeCell last st.stack)
        (st.open_upvalues.foldl (closeCell last st.stack) st.upvalues)
      = st.open_upvalues.foldl (closeCell last st.stack) st.upvalues := by
    apply foldl_closeCell_id
    intro id hid
    rcases hsmall id hid with ⟨s, hcell, hlt⟩
    exact closeCell_id_of_small last st.stack _ id s hlt hcell
  show ({ close_upvalues st last with
      upvalues := (close_upvalues st last).open_upvalues.foldl
        (closeCell last (close_upvalues st last).stack) (close_upvalues st last).upvalues,
      open_upvalues := (close_upvalues st last).open_upvalues.filter (fun i =>
        isStillOpen ((close_upvalues st last).open_upvalues.foldl
          (closeCell last (close_upvalues st last).stack)
          (close_upvalues st last).upvalues) i) } : VMState)
    = close_upvalues st last
  have hstk : (close_upvalues st last).stack = st.stack := rfl
  have hup : (close_upvalues st last).upvalues
      = st.open_upvalues.foldl (closeCell last st.stack) st.upvalues := rfl
  have hop : (close_upvalues st last).open_upvalues
      = st.open_upvalues.filter (fun i =>
          isStillOpen (st.open_upvalues.foldl (closeCell last st.stack) st.upvalues) i) := rfl
  rw [hstk, hup, hop, hfold2]
  simp [close_upvalues, List.filter_filter]

/-- C6: closing upvalues at threshold `last` replaces, in place, every
listed open upvalue whose slot is at or above `last` by a closed upvalue
holding the stack value at that slot, removing it from the open list
(cells open below `last` are untouched and retained); and a second
closing at the same threshold changes nothing. -/
theorem close_upvalues_spec (st : VMState) (last : Nat) :
    (∀ id ∈ st.open_upvalues, ∀ s : Nat,
      st.upvalues.getD id defaultUpvalue = .Open s →
      (last ≤ s → (close_upvalues st last).upvalues.getD id defaultUpvalue
          = .Closed (st.stack.getD s .nil)
        ∧ id ∉ (close_upvalues st last).open_upvalues)
      ∧ (s < last → (close_upvalues st last).upvalues.getD id defaultUpvalue = .Open s
        ∧ id ∈ (close_upvalues st last).open_upvalues))
    ∧ close_upvalues (close_upvalues st last) last = close_upvalues st last :=
  ⟨close_upvalues_char st last, close_upvalues_idem st last⟩

/-- Closed witness for `close_upvalues_spec`: closing at threshold 0 turns
the single open upvalue for slot 0 into `Closed 5` and empties the open
list. -/
theorem close_upvalues_spec_witness :
    (close_upvalues ⟨[.number (.fin 5)], [], [0], [.Open 0], [], []⟩ 0).upvalues.getD 0
        defaultUpvalue = .Closed (.number (.fin 5))
      ∧ 0 ∉ (close_upvalues ⟨[.number (.fin 5)], [], [0], [.Open 0], [], []⟩ 0).open_upvalues :=
  ((close_upvalues_spec ⟨[.number (.fin 5)], [], [0], [.Open 0], [], []⟩ 0).1 0
      (by decide) 0 rfl).1 (by decide)

/-- `isOpenAt` ignores cells appended beyond the index. -/
theorem isOpenAt_append (h l2 : List ObjUpvalue) (i L : Nat) (hi : i < h.length) :
    isOpenAt (h ++ l2) i L = isOpenAt h i L := by
  unfold isOpenAt
  rw [getD_append_lt h l2 i hi]

/-- C5: capturing an upvalue at stack slot `L` reuses the already-existing
open upvalue for `L` when the open list has one, and only otherwise
allocates a fresh `Open L` cell and appends it; the at-most-one-open-
upvalue-per-slot invariant is preserved; and a second capture of the same
slot returns the same cell without changing the state, so two closures
capturing the same slot share one mutable cell. -/
theorem capture_upvalue_spec (st : VMState) (L : Nat)
    (hv : ValidOpens st) (hu : UniqueOpen st) :
    ((∃ id ∈ st.open_upvalues, isOpenAt st.upvalues id L = true) →
        (capture_upvalue st L).2 = st
          ∧ (capture_upvalue st L).1 ∈ st.open_upvalues
          ∧ isOpenAt st.upvalues (capture_upvalue st L).1 L = true)
    ∧ ((∀ id ∈ st.open_upvalues, isOpenAt st.upvalues id L = false) →
        (capture_upvalue st L).1 = st.upvalues.length
          ∧ (capture_upvalue st L).2.upvalues = st.upvalues ++ [.Open L]
          ∧ (capture_upvalue st L).2.open_upvalues
              = st.open_upvalues ++ [st.upvalues.length])
    ∧ ValidOpens (capture_upvalue st L).2
    ∧ UniqueOpen (capture_upvalue st L).2
    ∧ capture_upvalue (capture_upvalue st L).2 L
        = ((capture_upvalue st L).1, (capture_upvalue st L).2) := by
  cases hfind : st.open_upvalues.find? (fun id => isOpenAt st.upvalues id L) with
  | some id =>
    have hcap : capture_upvalue st L = (id, st) := by
      simp [capture_upvalue, hfind]
    have hmem := List.mem_of_find?_eq_some hfind
    have hp : isOpenAt st.upvalues id L = true := by
      simpa using List.find?_some hfind
    refine ⟨fun _ => ?_, fun hnone => ?_, ?_, ?_, ?_⟩
    · rw [hcap]
      exact ⟨rfl, hmem, hp⟩
    · exact absurd hp (by simp [hnone id hmem])
    · rw [hcap]
      exact hv
    · rw [hcap]
      exact hu
    · rw [hcap]
      simp [capture_upvalue, hfind]
  | none =>
    have hnone : ∀ x ∈ st.open_upvalues, isOpenAt st.upvalues x L = false := by
      intro x hx
      simpa using List.find?_eq_none.mp hfind x hx
    have hcap : capture_upvalue st L
        = (st.upvalues.length,
           { st with
             upvalues := st.upvalues ++ [.Open L],
             open_upvalues := st.open_upvalues ++ [st.upvalues.length] }) := by
      simp [capture_upvalue, hfind, alloc_upvalue]
    have hnew : (st.upvalues ++ [ObjUpvalue.Open L]).getD st.upvalues.length
        defaultUpvalue = .Open L := by
      simpa using getD_append_cons st.upvalues [] (ObjUpvalue.Open L) defaultUpvalue
    have hold : ∀ i ∈ st.open_upvalues,
        (st.upvalues ++ [ObjUpvalue.Open L]).getD i defaultUpvalue
          = st.upvalues.getD i defaultUpvalue :=
      fun i hi => getD_append_lt st.upvalues [.Open L] i (hv i hi) defaultUpvalue
    refine ⟨fun hex => ?_, fun _ => ?_, ?_, ?_, ?_⟩
    · rcases hex with ⟨x, hx, hpx⟩
      rw [hnone x hx] at hpx
      exact Bool.noConfusion hpx
    · rw [hcap]
      exact ⟨rfl, rfl, rfl⟩
    · rw [hcap]
      intro i hi
      have hi' : i ∈ st.open_upvalues ++ [st.upvalues.length] := hi
      show i < (st.upvalues ++ [ObjUpvalue.Open L]).length
      rcases List.mem_append.mp hi' with hil | hil
      · have := hv i hil
        simp
        omega
      · have : i = st.upvalues.length := by simpa using hil
        subst this
        simp
    · rw [hcap]
      intro i hi j hj s hsi hsj
      have hi' : i ∈ st.open_upvalues ++ [st.upvalues.length] := hi
      have hj' : j ∈ st.open_upvalues ++ [st.upvalues.length] := hj
      have hsi' : (st.upvalues ++ [ObjUpvalue.Open L]).getD i defaultUpvalue
          = .Open s := hsi
      have hsj' : (st.upvalues ++ [ObjUpvalue.Open L]).getD j defaultUpvalue
          = .Open s := hsj
      rcases List.mem_append.mp hi' with hil | hil
      · rcases List.mem_append.mp hj' with hjl | hjl
        · rw [hold i hil] at hsi'
          rw [hold j hjl] at hsj'
          exact hu i hil j hjl s hsi' hsj'
        · have hjn : j = st.upvalues.length := by simpa using hjl
          subst hjn
          rw [hnew] at hsj'
          injection hsj' with hLs
          subst hLs
          rw [hold i hil] at hsi'
          have hcontra := hnone i hil
          rw [List.getD_eq_getElem?_getD] at hsi'
          simp [isOpenAt, hsi'] at hcontra
      · have hin : i = st.upvalues.length := by simpa using hil
        subst hin
        rcases List.mem_append.mp hj' with hjl | hjl
        · rw [hnew] at hsi'
          injection hsi' with hLs
          subst hLs
          rw [hold j hjl] at hsj'
          have hcontra := hnone j hjl
          rw [List.getD_eq_getElem?_getD] at hsj'
          simp [isOpenAt, hsj'] at hcontra
        · have hjn : j = st.upvalues.length := by simpa using hjl
          rw [hjn]
    · rw [hcap]
      have hp1 : st.open_upvalues.find?
          (fun id => isOpenAt (st.upvalues ++ [ObjUpvalue.Open L]) id L) = none := by
        rw [List.find?_eq_none]
        intro x hx
        rw [isOpenAt_append st.upvalues [ObjUpvalue.Open L] x L (hv x hx)]
        simp [hnone x hx]
      have hp2 : isOpenAt (st.upvalues ++ [ObjUpvalue.Open L])
          st.upvalues.length L = true := by
        simp [isOpenAt, hnew]
      have hfind2 : (st.open_upvalues ++ [st.upvalues.length]).find?
          (fun id => isOpenAt (st.upvalues ++ [ObjUpvalue.Open L]) id L)
          = some st.upvalues.length := by
        rw [List.find?_append, hp1]
        simp [List.find?_cons, hp2]
      simp [capture_upvalue, hfind2]

/-- Closed witness for `capture_upvalue_spec`: capturing slot 3 twice on an
empty open list allocates one cell and then reuses it. -/
theorem capture_upvalue_spec_witness :
    capture_upvalue (capture_upvalue ⟨[], [], [], [], [], []⟩ 3).2 3
      = ((capture_upvalue ⟨[], [], [], [], [], []⟩ 3).1,
         (capture_upvalue ⟨[], [], [], [], [], []⟩ 3).2) :=
  (capture_upvalue_spec ⟨[], [], [], [], [], []⟩ 3 (by simp [ValidOpens])
    (by simp [UniqueOpen])).2.2.2.2

/-- `Object::mark` on an already-marked object changes nothing. -/
theorem objMark_already (g : GcState) (id : Nat)
    (h : g.marked.getD id false = true) : objMark g id = g := by
  rw [List.getD_eq_getElem?_getD] at h
  simp [objMark, gcDataMark, h]

/-- `Object::mark` on an unmarked object sets the flag and appends the
object to the grey worklist. -/
theorem objMark_fresh (g : GcState) (id : Nat)
    (h : g.marked.getD id false = false) :
    objMark g id = { marked := g.marked.set id true, grey := g.grey ++ [id] } := by
  rw [List.getD_eq_getElem?_getD] at h
  simp [objMark, gcDataMark, h]

/-- Marking any sequence of in-range roots keeps the grey worklist free of
duplicates, provided every grey object is marked. -/
theorem markMany_nodup (roots : List Nat) :
    ∀ g : GcState, (∀ r ∈ roots, r < g.marked.length) →
      (∀ i ∈ g.grey, g.marked.getD i false = true) → g.grey.Nodup →
      (markMany g roots).grey.Nodup := by
  induction roots with
  | nil => intro g _ _ hnd; exact hnd
  | cons r rs ih =>
    intro g hb hg hnd
    have hstep : markMany g (r :: rs) = markMany (objMark g r) rs := rfl
    rw [hstep]
    cases hm : g.marked.getD r false with
    | true =>
      rw [objMark_already g r hm]
      exact ih g (fun x hx => hb x (List.mem_cons_of_mem r hx)) hg hnd
    | false =>
      rw [objMark_fresh g r hm]
      apply ih
      · intro x hx
        simpa using hb x (List.mem_cons_of_mem r hx)
      · intro i hi
        have hi' : i ∈ g.grey ++ [r] := hi
        rcases List.mem_append.mp hi' with hig | hinew
        · have hold := hg i hig
          have hir : r ≠ i := by
            intro he
            rw [← he, hm] at hold
            exact Bool.noConfusion hold
          show (g.marked.set r true).getD i false = true
          rw [List.getD_eq_getElem?_getD, List.getElem?_set_ne hir,
            ← List.getD_eq_getElem?_getD]
          exact hold
        · have : i = r := by simpa using hinew
          subst this
          have hrlen : i < g.marked.length := hb i (by simp)
          show (g.marked.set i true).getD i false = true
          simp [List.getD_eq_getElem?_getD, List.getElem?_set_self hrlen]
      · have hrnot : r ∉ g.grey := by
          intro hmem
          have := hg r hmem
          rw [this] at hm
          exact Bool.noConfusion hm
        show (g.grey ++ [r]).Nodup
        simp [List.nodup_append, hnd, hrnot]

/-- C7: marking an object sets its mark flag and pushes it onto the grey
worklist exactly when the flag was previously clear; marking an
already-marked object reports nothing new and changes nothing; hence
marking any sequence of roots enters each object into the grey worklist
at most once. -/
theorem gc_mark_spec (g : GcState) (roots : List Nat)
    (hroots : ∀ r ∈ roots, r < g.marked.length)
    (hgrey : ∀ i ∈ g.grey, g.marked.getD i false = true)
    (hnd : g.grey.Nodup) :
    (∀ id : Nat, id < g.marked.length →
      ((objMark g id).grey = g.grey ++ [id] ↔ g.marked.getD id false = false)
      ∧ (objMark g id).marked.getD id false = true
      ∧ (g.marked.getD id false = true → objMark g id = g))
    ∧ (markMany g roots).grey.Nodup := by
  refine ⟨fun id hid => ?_, markMany_nodup roots g hroots hgrey hnd⟩
  cases hm : g.marked.getD id false with
  | false =>
    rw [objMark_fresh g id hm]
    refine ⟨⟨fun _ => rfl, fun _ => rfl⟩, ?_, fun h => Bool.noConfusion h⟩
    show (g.marked.set id true).getD id false = true
    simp [List.getD_eq_getElem?_getD, List.getElem?_set_self hid]
  | true =>
    rw [objMark_already g id hm]
    refine ⟨⟨fun hgr => ?_, fun hfalse => Bool.noConfusion hfalse⟩, hm, fun _ => rfl⟩
    exfalso
    have := congrArg List.length hgr
    simp at this

/-- Closed witness for `gc_mark_spec`: marking roots with repetitions
leaves a duplicate-free grey worklist. -/
theorem gc_mark_spec_witness :
    (markMany ⟨[false, true, false], [1]⟩ [0, 2, 0, 1]).grey.Nodup :=
  (gc_mark_spec ⟨[false, true, false], [1]⟩ [0, 2, 0, 1] (by decide) (by decide)
    (by decide)).2

/-- `close_upvalues` leaves the operand stack unchanged. -/
theorem close_upvalues_stack (st : VMState) (last : Nat) :
    (close_upvalues st last).stack = st.stack := rfl

/-- `close_upvalues` leaves the frame stack unchanged. -/
theorem close_upvalues_frames (st : VMState) (last : Nat) :
    (close_upvalues st last).frames = st.frames := rfl

/-- C3: `Ret` pops the result, closes every listed open upvalue whose slot
is at or above the returning frame's slot base, and pops the frame; when
no frames remain it also pops the program's outer closure and reports
successful termination; otherwise it truncates the operand stack down to
the frame's slot base and pushes the result. -/
theorem ret_spec (st : VMState) (fr : CallFrame) (rest : List CallFrame)
    (pre : List Value) (result : Value)
    (hframes : st.frames = fr :: rest)
    (hstk : st.stack = pre ++ [result])
    (hlen : st.stack.length ≤ 256)
    (hslot : fr.slot ≤ pre.length) :
    (rest = [] → ret st = .ok (true,
        { close_upvalues { st with stack := pre } fr.slot with
          stack := pre.dropLast, frames := [] }))
    ∧ (rest ≠ [] → ret st = .ok (false,
        { close_upvalues { st with stack := pre } fr.slot with
          stack := pre.take fr.slot ++ [result], frames := rest }))
    ∧ (∀ id ∈ st.open_upvalues, ∀ s : Nat,
        st.upvalues.getD id defaultUpvalue = .Open s →
        (fr.slot ≤ s →
          (close_upvalues { st with stack := pre } fr.slot).upvalues.getD id
              defaultUpvalue = .Closed (pre.getD s .nil)
            ∧ id ∉ (close_upvalues { st with stack := pre } fr.slot).open_upvalues)
        ∧ (s < fr.slot →
          (close_upvalues { st with stack := pre } fr.slot).upvalues.getD id
              defaultUpvalue = .Open s
            ∧ id ∈ (close_upvalues { st with stack := pre } fr.slot).open_upvalues)) := by
  have hpop : stack_pop st = (result, { st with stack := pre }) := by
    simp [stack_pop, hstk]
  refine ⟨fun hrest => ?_, fun hrest => ?_,
    fun id hid s hs => close_upvalues_char { st with stack := pre } fr.slot id hid s hs⟩
  · subst hrest
    simp only [ret, hpop]
    simp [frames_pop, close_upvalues_frames, close_upvalues_stack, hframes,
      stack_pop, List.headD_cons]
  · have hrlen : rest.length ≠ 0 := by
      intro h0
      exact hrest (List.length_eq_zero.mp h0)
    have harith : pre.length - (pre.length - fr.slot) = fr.slot := by omega
    have hplen : pre.length + 1 ≤ 256 := by
      rw [hstk] at hlen
      simpa using hlen
    have htake : ¬ (fr.slot ⊓ pre.length = 256) := by
      omega
    simp only [ret, hpop]
    simp [frames_pop, close_upvalues_frames, close_upvalues_stack, hframes,
      stack_remove_top, stack_push, VM_STACK_SIZE, hrlen, harith, htake,
      List.headD_cons]

/-- Closed witness for `ret_spec`: returning from the last frame pops the
result and the outer closure and terminates. -/
theorem ret_spec_witness :
    ret ⟨[.nil, .number (.fin 2)], [⟨⟨⟨none, 0, 0⟩, []⟩, 0, 0⟩], [], [], [], []⟩
      = .ok (true, ⟨[], [], [], [], [], []⟩) :=
  (ret_spec ⟨[.nil, .number (.fin 2)], [⟨⟨⟨none, 0, 0⟩, []⟩, 0, 0⟩], [], [], [], []⟩
    ⟨⟨⟨none, 0, 0⟩, []⟩, 0, 0⟩ [] [.nil] (.number (.fin 2))
    rfl rfl (by decide) (by decide)).1 rfl

end Rox
